import Mathlib

/-!
Verification development for the screen action recorder
(`screen_action_recorder.py`): a shallow embedding of the action
correlation engine (`ActionTracker`) and of the timestamp alignment
pass, followed by theorems about the spec's claims.

Times are modelled as exact rationals (the Python code uses a monotonic
float clock; none of the claims depend on float rounding of the clock
itself).  Machine strings, lists and the screenshot counter are embedded
directly.
-/

namespace ScreenRec

/-- Constant `TYPING_GAP = 5.0`: inactivity (s) that ends a typing phrase. -/
def typingGap : ℚ := 5

/-- The separator used when joining modifier names (`"+".join(...)`). -/
def plus : String := "+"

/-- A single apostrophe character, used by the typing description. -/
def apos : String := String.singleton (Char.ofNat 39)

/-- Renders `f"typed: '{phrase}'"`. -/
def typedDesc (phrase : String) : String :=
  "typed: " ++ apos ++ phrase ++ apos

/-- Keyboard keys, as a tagged variant: the four modifier keys with their
left/right variants, the members of `SPECIAL_TYPING_KEYS`, a key code
carrying a character (with its Python `str.isprintable()` verdict), and
any other named key (`Key.esc`, function keys, ...). -/
inductive Key where
  | cmdK | cmdR | ctrlK | ctrlR | shiftK | shiftR | altK | altR
  | enter | backspace | delete | tab | space
  | kc (c : Char) (printable : Bool)
  | other (name : String)
deriving DecidableEq

/-- Table `SPECIAL_TYPING_KEYS`: Key → literal representation appended to the
phrase. -/
def specialTypingKey : Key → Option String
  | .enter => some ("\n")
  | .backspace => some ("<BACKSPACE>")
  | .delete => some ("<DELETE>")
  | .tab => some ("\t")
  | .space => some (" ")
  | _ => none

/-- Function `_update_modifier_state` returns `True` exactly for these keys. -/
def isModifierKey : Key → Bool
  | .cmdK | .cmdR | .ctrlK | .ctrlR | .shiftK | .shiftR | .altK | .altR => true
  | _ => false

/-- Function `_key_name`: the key's char when it has one, else the symbolic name
(`str(key).split(".")[-1]`). -/
def keyName : Key → String
  | .kc c _ => String.singleton c
  | .cmdK => "cmd"
  | .cmdR => "cmd_r"
  | .ctrlK => "ctrl"
  | .ctrlR => "ctrl_r"
  | .shiftK => "shift"
  | .shiftR => "shift_r"
  | .altK => "alt"
  | .altR => "alt_r"
  | .enter => "enter"
  | .backspace => "backspace"
  | .delete => "delete"
  | .tab => "tab"
  | .space => "space"
  | .other n => n

/-- The token a key contributes to a typing phrase, if any: its char when
printable, else its `SPECIAL_TYPING_KEYS` literal (steps 3–4 of
`on_press` after the combo branch). -/
def tokenOf : Key → Option String
  | .kc c p => if p then some (String.singleton c) else none
  | k => specialTypingKey k

/-- A set over `{ctrl, command, option, shift}` (the values
`frozenset(self._current_modifiers())` can take). -/
structure ModSet where
  ctrl : Bool
  command : Bool
  option : Bool
  shift : Bool
deriving DecidableEq

def ModSet.empty : ModSet := ⟨false, false, false, false⟩

/-- Python truthiness of the frozenset (`if mods`). -/
def ModSet.isEmpty (m : ModSet) : Bool :=
  !(m.ctrl || m.command || m.option || m.shift)

/-- The members of the set listed in the canonical `_MOD_ORDER`
(`ctrl, command, option, shift`); this is both what
`_current_modifiers` returns and what `_sorted_mods` produces. -/
def ModSet.names (m : ModSet) : List String :=
  (if m.ctrl then ["ctrl"] else []) ++ (if m.command then ["command"] else [])
    ++ (if m.option then ["option"] else []) ++ (if m.shift then ["shift"] else [])

/-- Mouse buttons: the two tracked ones plus a representative untracked
button. -/
inductive MButton where
  | left | right | middle
deriving DecidableEq

def MButton.name : MButton → String
  | .left => "left"
  | .right => "right"
  | .middle => "middle"

/-- The `Action` dataclass. `end_` stands for the Python field `end`. -/
structure Action where
  kind : String
  description : String
  start : ℚ
  end_ : ℚ
  ss_idx : Nat
deriving DecidableEq

/-- The active modifier-hold block `(mods, t_start, ss_idx, used)`. -/
structure ModBlock where
  mods : ModSet
  t0 : ℚ
  idx : Nat
  used : Bool
deriving DecidableEq

/-- A pending click `(x, y, t_press, ss_idx, mods)`. -/
structure Pending where
  x : ℤ
  y : ℤ
  t : ℚ
  idx : Nat
  mods : ModSet
deriving DecidableEq

/-- The mutable state of `ActionTracker`.  `clickLeft`/`clickRight` are
the only two entries the `_click_start` dict can ever hold (only presses
of the left and right button store into it).  `ssDirSome` is whether
`_ss_dir` is not `None`. -/
structure St where
  origin : ℚ
  actions : List Action
  typingStart : Option ℚ
  lastKeyTs : Option ℚ
  typedChars : List String
  typingId : Option Nat
  commandDown : Bool
  ctrlDown : Bool
  shiftDown : Bool
  optionDown : Bool
  activeModBlock : Option ModBlock
  clickLeft : Option Pending
  clickRight : Option Pending
  debug : Bool
  ssDirSome : Bool
  ssIdx : Nat
  ssRequests : List (Nat × String × ℚ)
deriving DecidableEq

/-- Constructor `ActionTracker.__init__`. -/
def mkTracker (origin : ℚ) (debug ssDir : Bool) : St :=
  { origin := origin, actions := [], typingStart := none, lastKeyTs := none
    typedChars := [], typingId := none
    commandDown := false, ctrlDown := false, shiftDown := false, optionDown := false
    activeModBlock := none, clickLeft := none, clickRight := none
    debug := debug, ssDirSome := ssDir, ssIdx := 1, ssRequests := [] }

def phStart : String := "start"

def phEnd : String := "end"

/-- Method `_capture`: queue a screenshot request iff debug mode is active and a
screenshots directory was given. -/
def capture (s : St) (idx : Nat) (phase : String) (rel : ℚ) : St :=
  if s.debug && s.ssDirSome then
    { s with ssRequests := s.ssRequests ++ [(idx, phase, rel)] }
  else s

/-- The modifier set currently held (`_current_modifiers`, as a set). -/
def currentModSet (s : St) : ModSet :=
  ⟨s.ctrlDown, s.commandDown, s.optionDown, s.shiftDown⟩

/-- The flag mutation of `_update_modifier_state`. -/
def updateMod (s : St) (k : Key) (down : Bool) : St :=
  match k with
  | .cmdK | .cmdR => { s with commandDown := down }
  | .ctrlK | .ctrlR => { s with ctrlDown := down }
  | .shiftK | .shiftR => { s with shiftDown := down }
  | .altK | .altR => { s with optionDown := down }
  | _ => s

/-- Method `_mark_mod_block_used`. -/
def markUsed (s : St) : St :=
  match s.activeModBlock with
  | none => s
  | some b => { s with activeModBlock := some ⟨b.mods, b.t0, b.idx, true⟩ }

/-- Open a new modifier block (second half of the rollover). -/
def openBlock (s : St) (ts : ℚ) (current : ModSet) : St :=
  let idx := s.ssIdx
  let s1 := { s with ssIdx := idx + 1 }
  let s2 := capture s1 idx phStart (ts - s1.origin)
  { s2 with activeModBlock := some ⟨current, ts, idx, false⟩ }

/-- Method `_maybe_rollover_modifier_block`. -/
def maybeRollover (s : St) (ts : ℚ) : St :=
  let current := currentModSet s
  match s.activeModBlock with
  | none =>
    if current = ModSet.empty then s else openBlock s ts current
  | some b =>
    if current = b.mods then s
    else
      let s1 :=
        if b.used then
          let relEnd := ts - s.origin
          let desc := String.intercalate plus b.mods.names ++ " held"
          let sA := { s with actions :=
            s.actions ++ [⟨"modifier_hold", desc, b.t0 - s.origin, relEnd, b.idx⟩] }
          capture sA b.idx phEnd relEnd
        else s
      let s2 := { s1 with activeModBlock := none }
      if current = ModSet.empty then s2 else openBlock s2 ts current

/-- Method `_begin_or_continue_typing`. -/
def beginOrContinue (s : St) (ts : ℚ) (tok : String) : St :=
  let s1 :=
    match s.typingStart with
    | none =>
      let tid := s.ssIdx
      let s' := { s with ssIdx := tid + 1, typingStart := some ts, typingId := some tid }
      capture s' tid phStart (ts - s'.origin)
    | some _ => s
  { s1 with typedChars := s1.typedChars ++ [tok], lastKeyTs := some ts }

/-- Method `_finalize_typing`: if a phrase is open, append the `typing` Action
when the phrase is non-empty, issue the end capture request when
`_typing_id` is set (and debug capture is on, per `_capture`), then
clear all four phrase fields.  (Invariant of the code: `_typing_start`
and `_typing_id` are always set and cleared together, so
`typingId.getD 0` is only a type-level default.) -/
def finalizeTyping (s : St) (ts : ℚ) : St :=
  match s.typingStart with
  | none => s
  | some t0 =>
    let phrase := String.join s.typedChars
    let acts :=
      if phrase = "" then s.actions
      else s.actions ++
        [⟨"typing", typedDesc phrase, t0 - s.origin, ts - s.origin, s.typingId.getD 0⟩]
    let reqs :=
      match s.typingId with
      | some tid =>
        if s.debug && s.ssDirSome then s.ssRequests ++ [(tid, phEnd, ts - s.origin)]
        else s.ssRequests
      | none => s.ssRequests
    { s with
      actions := acts
      ssRequests := reqs
      typingStart := none
      lastKeyTs := none
      typedChars := []
      typingId := none }

/-- Method `_flush_checker`, one iteration of the check at wall time `now`. -/
def flushTick (s : St) (now : ℚ) : St :=
  match s.typingStart, s.lastKeyTs with
  | some _, some last =>
    if now - last > typingGap then finalizeTyping s now else s
  | _, _ => s

def getPending (s : St) : MButton → Option Pending
  | .left => s.clickLeft
  | .right => s.clickRight
  | .middle => none

def setPending (s : St) (b : MButton) (v : Option Pending) : St :=
  match b with
  | .left => { s with clickLeft := v }
  | .right => { s with clickRight := v }
  | .middle => s

/-- The description of a finalized click
(`f"{mod_pfx}{kind} ({sx},{sy}) → ({x},{y})"`). -/
def clickDesc (kind : String) (p : Pending) (x y : ℤ) : String :=
  (if p.mods.isEmpty then "" else String.intercalate plus p.mods.names ++ " ")
    ++ kind ++ " (" ++ toString p.x ++ "," ++ toString p.y ++ ") → ("
    ++ toString x ++ "," ++ toString y ++ ")"

/-- Method `on_click`. -/
def onClick (s : St) (x y : ℤ) (b : MButton) (pressed : Bool) (now : ℚ) : St :=
  if pressed then
    if b = MButton.middle then s
    else
      let idx := s.ssIdx
      let s1 := { s with ssIdx := idx + 1 }
      let s2 := capture s1 idx phStart (now - s1.origin)
      let mods := currentModSet s2
      setPending s2 b (some ⟨x, y, now, idx, mods⟩)
  else
    match getPending s b with
    | none => s
    | some p =>
      let sP := setPending s b none
      let relStart := p.t - sP.origin
      let relEnd := now - sP.origin
      let kind := MButton.name b ++ "_click"
      let desc := clickDesc kind p x y
      let sF := finalizeTyping sP now
      let sA := { sF with actions := sF.actions ++ [⟨kind, desc, relStart, relEnd, p.idx⟩] }
      capture sA p.idx phEnd relEnd

/-- Condition `any(m in mods for m in ("command", "ctrl", "option"))`. -/
def comboCtx (s : St) : Bool :=
  s.commandDown || s.ctrlDown || s.optionDown

/-- Method `on_press`. -/
def onPress (s0 : St) (k : Key) (now : ℚ) : St :=
  if isModifierKey k then maybeRollover (updateMod s0 k true) now
  else
    let s1 := markUsed s0
    if comboCtx s1 then
      let desc := String.intercalate plus ((currentModSet s1).names ++ [keyName k])
      let s2 := finalizeTyping s1 now
      let relT := now - s2.origin
      let idx := s2.ssIdx
      let s3 := { s2 with ssIdx := idx + 1 }
      let s4 := capture s3 idx phStart relT
      let s5 := { s4 with actions := s4.actions ++ [⟨"key_combo", desc, relT, relT, idx⟩] }
      capture s5 idx phEnd relT
    else
      match tokenOf k with
      | some tok => beginOrContinue s1 now tok
      | none => s1

/-- Method `on_release`. -/
def onRelease (s : St) (k : Key) (now : ℚ) : St :=
  if isModifierKey k then maybeRollover (updateMod s k false) now else s

/-- Method `stop`: flush pending typing, then run the rollover check (the
watchdog flag itself carries no further state we model). -/
def stopTracker (s : St) (t1 t2 : ℚ) : St :=
  maybeRollover (finalizeTyping s t1) t2

/-- The events delivered to the tracker. -/
inductive Event where
  | press (k : Key) (t : ℚ)
  | release (k : Key) (t : ℚ)
  | click (x y : ℤ) (b : MButton) (pressed : Bool) (t : ℚ)
  | flush (t : ℚ)
deriving DecidableEq

def stepEv (s : St) : Event → St
  | .press k t => onPress s k t
  | .release k t => onRelease s k t
  | .click x y b pressed t => onClick s x y b pressed t
  | .flush t => flushTick s t

def runEvents (s : St) (evs : List Event) : St :=
  evs.foldl stepEv s

/-- Function `_snap`: round `t` to the closest frame boundary (1 / fps). -/
def snap (t : ℚ) (fps : ℕ) (offset : ℚ) : ℚ :=
  ((round ((t - offset) * (fps : ℚ)) : ℤ) : ℚ) / (fps : ℚ)

/-- The per-action remapping of the alignment pass. -/
def snapAction (fps : ℕ) (t0 : ℚ) (a : Action) : Action :=
  { a with start := snap a.start fps t0, end_ := snap a.end_ fps t0 }

def idxLe (a b : Action) : Bool := decide (a.ss_idx ≤ b.ss_idx)

/-- The alignment pass of `main`: snap every action's `start`/`end`, then
re-sort the log by `ss_idx` (Python's stable `list.sort`). -/
def alignActions (fps : ℕ) (t0 : ℚ) (log : List Action) : List Action :=
  (log.map (snapAction fps t0)).mergeSort idxLe

/-- An event that is not a press or release of a modifier key. -/
def nonModEvent : Event → Bool
  | .press k _ => !isModifierKey k
  | .release k _ => !isModifierKey k
  | _ => true

def isPressEvent : Event → Bool
  | .press _ _ => true
  | _ => false

/-- Fixture: the state right after typing the character a at time 1
(debug capture on); an open one-token typing phrase. -/
def wPressA : St := onPress (mkTracker 0 true true) (Key.kc (Char.ofNat 97) true) 1

/-- Fixture: the state right after pressing shift at time 1; an active,
not yet used shift hold. -/
def wShiftHold : St := runEvents (mkTracker 0 false false) [Event.press Key.shiftK 1]

/-- Fixture: shift held from time 1, the character a pressed at time 2
(marking the hold used), then the shift flag cleared; an active, used
hold whose set differs from the current modifier state. -/
def wShiftUsed : St :=
  updateMod (runEvents (mkTracker 0 false false)
    [Event.press Key.shiftK 1, Event.press (Key.kc (Char.ofNat 97) true) 2]) Key.shiftK false

/-- Fixture: a fresh tracker with only the command flag set. -/
def wCmdHeld : St := updateMod (mkTracker 0 false false) Key.cmdK true

/-! Preservation lemmas for the state operations -/

@[simp] theorem capture_origin (s : St) (i : Nat) (ph : String) (r : ℚ) :
    (capture s i ph r).origin = s.origin := by
  unfold capture; split <;> rfl

@[simp] theorem capture_actions (s : St) (i : Nat) (ph : String) (r : ℚ) :
    (capture s i ph r).actions = s.actions := by
  unfold capture; split <;> rfl

@[simp] theorem capture_typingStart (s : St) (i : Nat) (ph : String) (r : ℚ) :
    (capture s i ph r).typingStart = s.typingStart := by
  unfold capture; split <;> rfl

@[simp] theorem capture_lastKeyTs (s : St) (i : Nat) (ph : String) (r : ℚ) :
    (capture s i ph r).lastKeyTs = s.lastKeyTs := by
  unfold capture; split <;> rfl

@[simp] theorem capture_typedChars (s : St) (i : Nat) (ph : String) (r : ℚ) :
    (capture s i ph r).typedChars = s.typedChars := by
  unfold capture; split <;> rfl

@[simp] theorem capture_typingId (s : St) (i : Nat) (ph : String) (r : ℚ) :
    (capture s i ph r).typingId = s.typingId := by
  unfold capture; split <;> rfl

@[simp] theorem capture_commandDown (s : St) (i : Nat) (ph : String) (r : ℚ) :
    (capture s i ph r).commandDown = s.commandDown := by
  unfold capture; split <;> rfl

@[simp] theorem capture_ctrlDown (s : St) (i : Nat) (ph : String) (r : ℚ) :
    (capture s i ph r).ctrlDown = s.ctrlDown := by
  unfold capture; split <;> rfl

@[simp] theorem capture_shiftDown (s : St) (i : Nat) (ph : String) (r : ℚ) :
    (capture s i ph r).shiftDown = s.shiftDown := by
  unfold capture; split <;> rfl

@[simp] theorem capture_optionDown (s : St) (i : Nat) (ph : String) (r : ℚ) :
    (capture s i ph r).optionDown = s.optionDown := by
  unfold capture; split <;> rfl

@[simp] theorem capture_activeModBlock (s : St) (i : Nat) (ph : String) (r : ℚ) :
    (capture s i ph r).activeModBlock = s.activeModBlock := by
  unfold capture; split <;> rfl

@[simp] theorem capture_clickLeft (s : St) (i : Nat) (ph : String) (r : ℚ) :
    (capture s i ph r).clickLeft = s.clickLeft := by
  unfold capture; split <;> rfl

@[simp] theorem capture_clickRight (s : St) (i : Nat) (ph : String) (r : ℚ) :
    (capture s i ph r).clickRight = s.clickRight := by
  unfold capture; split <;> rfl

@[simp] theorem capture_debug (s : St) (i : Nat) (ph : String) (r : ℚ) :
    (capture s i ph r).debug = s.debug := by
  unfold capture; split <;> rfl

@[simp] theorem capture_ssDirSome (s : St) (i : Nat) (ph : String) (r : ℚ) :
    (capture s i ph r).ssDirSome = s.ssDirSome := by
  unfold capture; split <;> rfl

@[simp] theorem capture_ssIdx (s : St) (i : Nat) (ph : String) (r : ℚ) :
    (capture s i ph r).ssIdx = s.ssIdx := by
  unfold capture; split <;> rfl

theorem capture_ssRequests (s : St) (i : Nat) (ph : String) (r : ℚ) :
    (capture s i ph r).ssRequests
      = s.ssRequests ++ (if s.debug && s.ssDirSome then [(i, ph, r)] else []) := by
  unfold capture; split <;> simp_all

@[simp] theorem currentModSet_capture (s : St) (i : Nat) (ph : String) (r : ℚ) :
    currentModSet (capture s i ph r) = currentModSet s := by
  unfold currentModSet; simp

@[simp] theorem finalizeTyping_origin (s : St) (ts : ℚ) :
    (finalizeTyping s ts).origin = s.origin := by
  unfold finalizeTyping; cases s.typingStart <;> rfl

@[simp] theorem finalizeTyping_commandDown (s : St) (ts : ℚ) :
    (finalizeTyping s ts).commandDown = s.commandDown := by
  unfold finalizeTyping; cases s.typingStart <;> rfl

@[simp] theorem finalizeTyping_ctrlDown (s : St) (ts : ℚ) :
    (finalizeTyping s ts).ctrlDown = s.ctrlDown := by
  unfold finalizeTyping; cases s.typingStart <;> rfl

@[simp] theorem finalizeTyping_shiftDown (s : St) (ts : ℚ) :
    (finalizeTyping s ts).shiftDown = s.shiftDown := by
  unfold finalizeTyping; cases s.typingStart <;> rfl

@[simp] theorem finalizeTyping_optionDown (s : St) (ts : ℚ) :
    (finalizeTyping s ts).optionDown = s.optionDown := by
  unfold finalizeTyping; cases s.typingStart <;> rfl

@[simp] theorem finalizeTyping_activeModBlock (s : St) (ts : ℚ) :
    (finalizeTyping s ts).activeModBlock = s.activeModBlock := by
  unfold finalizeTyping; cases s.typingStart <;> rfl

@[simp] theorem finalizeTyping_clickLeft (s : St) (ts : ℚ) :
    (finalizeTyping s ts).clickLeft = s.clickLeft := by
  unfold finalizeTyping; cases s.typingStart <;> rfl

@[simp] theorem finalizeTyping_clickRight (s : St) (ts : ℚ) :
    (finalizeTyping s ts).clickRight = s.clickRight := by
  unfold finalizeTyping; cases s.typingStart <;> rfl

@[simp] theorem finalizeTyping_debug (s : St) (ts : ℚ) :
    (finalizeTyping s ts).debug = s.debug := by
  unfold finalizeTyping; cases s.typingStart <;> rfl

@[simp] theorem finalizeTyping_ssDirSome (s : St) (ts : ℚ) :
    (finalizeTyping s ts).ssDirSome = s.ssDirSome := by
  unfold finalizeTyping; cases s.typingStart <;> rfl

@[simp] theorem finalizeTyping_ssIdx (s : St) (ts : ℚ) :
    (finalizeTyping s ts).ssIdx = s.ssIdx := by
  unfold finalizeTyping; cases s.typingStart <;> rfl

theorem finalizeTyping_typingStart (s : St) (ts : ℚ) :
    (finalizeTyping s ts).typingStart = none := by
  unfold finalizeTyping
  cases h : s.typingStart
  · exact h
  · rfl

@[simp] theorem currentModSet_finalizeTyping (s : St) (ts : ℚ) :
    currentModSet (finalizeTyping s ts) = currentModSet s := by
  unfold currentModSet; simp

/-- Method `_finalize_typing` with no open phrase is the identity. -/
theorem finalizeTyping_noop (s : St) (ts : ℚ) (h : s.typingStart = none) :
    finalizeTyping s ts = s := by
  unfold finalizeTyping; rw [h]

/-- Closing an open, non-empty phrase appends exactly one `typing`
Action, spanning phrase start to the finalisation time `ts`. -/
theorem finalizeTyping_actions_eq (s : St) (ts t0 : ℚ)
    (h : s.typingStart = some t0) (hph : String.join s.typedChars ≠ "") :
    (finalizeTyping s ts).actions = s.actions ++
      [⟨"typing", typedDesc (String.join s.typedChars),
        t0 - s.origin, ts - s.origin, s.typingId.getD 0⟩] := by
  unfold finalizeTyping; rw [h]; simp [hph]

/-- Closing an open phrase with an allocated capture index queues the
end-phase request at the finalisation time `ts`. -/
theorem finalizeTyping_requests_eq (s : St) (ts : ℚ) (t0 : ℚ) (tid : Nat)
    (h : s.typingStart = some t0) (hid : s.typingId = some tid) :
    (finalizeTyping s ts).ssRequests = s.ssRequests ++
      (if s.debug && s.ssDirSome then [(tid, phEnd, ts - s.origin)] else []) := by
  unfold finalizeTyping; rw [h]; simp only [hid]; split <;> simp_all

theorem finalizeTyping_actions_sub (s : St) (ts : ℚ) (a : Action)
    (ha : a ∈ (finalizeTyping s ts).actions) : a ∈ s.actions ∨ a.kind = "typing" := by
  unfold finalizeTyping at ha
  cases h : s.typingStart with
  | none => rw [h] at ha; exact Or.inl ha
  | some t0 =>
    rw [h] at ha
    simp only at ha
    split at ha
    · exact Or.inl ha
    · rcases List.mem_append.1 ha with h1 | h1
      · exact Or.inl h1
      · right; simp at h1; rw [h1]

@[simp] theorem getPending_capture (s : St) (i : Nat) (ph : String) (r : ℚ) (b : MButton) :
    getPending (capture s i ph r) b = getPending s b := by
  cases b <;> simp [getPending]

@[simp] theorem getPending_finalizeTyping (s : St) (ts : ℚ) (b : MButton) :
    getPending (finalizeTyping s ts) b = getPending s b := by
  cases b <;> simp [getPending]

@[simp] theorem setPending_origin (s : St) (b : MButton) (v : Option Pending) :
    (setPending s b v).origin = s.origin := by
  cases b <;> rfl

@[simp] theorem setPending_actions (s : St) (b : MButton) (v : Option Pending) :
    (setPending s b v).actions = s.actions := by
  cases b <;> rfl

@[simp] theorem setPending_typingStart (s : St) (b : MButton) (v : Option Pending) :
    (setPending s b v).typingStart = s.typingStart := by
  cases b <;> rfl

@[simp] theorem setPending_ssRequests (s : St) (b : MButton) (v : Option Pending) :
    (setPending s b v).ssRequests = s.ssRequests := by
  cases b <;> rfl

@[simp] theorem setPending_activeModBlock (s : St) (b : MButton) (v : Option Pending) :
    (setPending s b v).activeModBlock = s.activeModBlock := by
  cases b <;> rfl

@[simp] theorem setPending_ssIdx (s : St) (b : MButton) (v : Option Pending) :
    (setPending s b v).ssIdx = s.ssIdx := by
  cases b <;> rfl

@[simp] theorem currentModSet_setPending (s : St) (b : MButton) (v : Option Pending) :
    currentModSet (setPending s b v) = currentModSet s := by
  cases b <;> rfl

theorem getPending_setPending_same (s : St) (b : MButton) (v : Option Pending)
    (hb : b ≠ MButton.middle) : getPending (setPending s b v) b = v := by
  cases b <;> first | rfl | exact absurd rfl hb

@[simp] theorem markUsed_origin (s : St) : (markUsed s).origin = s.origin := by
  unfold markUsed; cases s.activeModBlock <;> rfl

@[simp] theorem markUsed_actions (s : St) : (markUsed s).actions = s.actions := by
  unfold markUsed; cases s.activeModBlock <;> rfl

@[simp] theorem markUsed_typingStart (s : St) : (markUsed s).typingStart = s.typingStart := by
  unfold markUsed; cases s.activeModBlock <;> rfl

@[simp] theorem markUsed_lastKeyTs (s : St) : (markUsed s).lastKeyTs = s.lastKeyTs := by
  unfold markUsed; cases s.activeModBlock <;> rfl

@[simp] theorem markUsed_typedChars (s : St) : (markUsed s).typedChars = s.typedChars := by
  unfold markUsed; cases s.activeModBlock <;> rfl

@[simp] theorem markUsed_typingId (s : St) : (markUsed s).typingId = s.typingId := by
  unfold markUsed; cases s.activeModBlock <;> rfl

@[simp] theorem markUsed_commandDown (s : St) : (markUsed s).commandDown = s.commandDown := by
  unfold markUsed; cases s.activeModBlock <;> rfl

@[simp] theorem markUsed_ctrlDown (s : St) : (markUsed s).ctrlDown = s.ctrlDown := by
  unfold markUsed; cases s.activeModBlock <;> rfl

@[simp] theorem markUsed_shiftDown (s : St) : (markUsed s).shiftDown = s.shiftDown := by
  unfold markUsed; cases s.activeModBlock <;> rfl

@[simp] theorem markUsed_optionDown (s : St) : (markUsed s).optionDown = s.optionDown := by
  unfold markUsed; cases s.activeModBlock <;> rfl

@[simp] theorem markUsed_debug (s : St) : (markUsed s).debug = s.debug := by
  unfold markUsed; cases s.activeModBlock <;> rfl

@[simp] theorem markUsed_ssDirSome (s : St) : (markUsed s).ssDirSome = s.ssDirSome := by
  unfold markUsed; cases s.activeModBlock <;> rfl

@[simp] theorem markUsed_ssIdx (s : St) : (markUsed s).ssIdx = s.ssIdx := by
  unfold markUsed; cases s.activeModBlock <;> rfl

@[simp] theorem markUsed_ssRequests (s : St) : (markUsed s).ssRequests = s.ssRequests := by
  unfold markUsed; cases s.activeModBlock <;> rfl

@[simp] theorem currentModSet_markUsed (s : St) : currentModSet (markUsed s) = currentModSet s := by
  unfold currentModSet; simp

@[simp] theorem comboCtx_markUsed (s : St) : comboCtx (markUsed s) = comboCtx s := by
  unfold comboCtx; simp

theorem markUsed_activeModBlock (s : St) :
    (markUsed s).activeModBlock
      = s.activeModBlock.map (fun b => ⟨b.mods, b.t0, b.idx, true⟩) := by
  unfold markUsed; cases h : s.activeModBlock <;> simp [h]

@[simp] theorem openBlock_actions (s : St) (ts : ℚ) (m : ModSet) :
    (openBlock s ts m).actions = s.actions := by
  unfold openBlock; simp

@[simp] theorem openBlock_origin (s : St) (ts : ℚ) (m : ModSet) :
    (openBlock s ts m).origin = s.origin := by
  unfold openBlock; simp

theorem maybeRollover_none (s : St) (ts : ℚ) (h : s.activeModBlock = none) :
    maybeRollover s ts =
      if currentModSet s = ModSet.empty then s else openBlock s ts (currentModSet s) := by
  unfold maybeRollover; rw [h]

theorem maybeRollover_same (s : St) (ts : ℚ) (b : ModBlock)
    (h : s.activeModBlock = some b) (hsame : currentModSet s = b.mods) :
    maybeRollover s ts = s := by
  unfold maybeRollover; rw [h]; simp [hsame]

theorem maybeRollover_close (s : St) (ts : ℚ) (b : ModBlock)
    (h : s.activeModBlock = some b) (hne : currentModSet s ≠ b.mods) :
    maybeRollover s ts =
      (let s1 :=
        if b.used then
          capture { s with actions := s.actions ++
              [⟨"modifier_hold", String.intercalate plus b.mods.names ++ " held",
                b.t0 - s.origin, ts - s.origin, b.idx⟩] }
            b.idx phEnd (ts - s.origin)
        else s
      let s2 := { s1 with activeModBlock := none }
      if currentModSet s = ModSet.empty then s2 else openBlock s2 ts (currentModSet s)) := by
  unfold maybeRollover; rw [h]; simp [hne]

theorem maybeRollover_close_actions (s : St) (ts : ℚ) (b : ModBlock)
    (h : s.activeModBlock = some b) (hne : currentModSet s ≠ b.mods) :
    (maybeRollover s ts).actions = s.actions ++
      (if b.used then
        [⟨"modifier_hold", String.intercalate plus b.mods.names ++ " held",
          b.t0 - s.origin, ts - s.origin, b.idx⟩]
      else []) := by
  rw [maybeRollover_close s ts b h hne]
  by_cases hu : b.used = true <;> by_cases hc : currentModSet s = ModSet.empty <;>
    simp [hu, hc]

theorem maybeRollover_actions_sub (s : St) (ts : ℚ) (a : Action)
    (ha : a ∈ (maybeRollover s ts).actions) : a ∈ s.actions ∨ a.kind = "modifier_hold" := by
  cases h : s.activeModBlock with
  | none =>
    rw [maybeRollover_none s ts h] at ha
    by_cases hc : currentModSet s = ModSet.empty <;> simp [hc] at ha <;> exact Or.inl ha
  | some b =>
    by_cases hsame : currentModSet s = b.mods
    · rw [maybeRollover_same s ts b h hsame] at ha; exact Or.inl ha
    · rw [maybeRollover_close_actions s ts b h hsame] at ha
      by_cases hu : b.used = true <;> simp [hu] at ha
      · rcases ha with ha | ha
        · exact Or.inl ha
        · right; rw [ha]
      · exact Or.inl ha

@[simp] theorem updateMod_origin (s : St) (k : Key) (d : Bool) :
    (updateMod s k d).origin = s.origin := by
  cases k <;> rfl

@[simp] theorem updateMod_actions (s : St) (k : Key) (d : Bool) :
    (updateMod s k d).actions = s.actions := by
  cases k <;> rfl

@[simp] theorem updateMod_typingStart (s : St) (k : Key) (d : Bool) :
    (updateMod s k d).typingStart = s.typingStart := by
  cases k <;> rfl

@[simp] theorem updateMod_lastKeyTs (s : St) (k : Key) (d : Bool) :
    (updateMod s k d).lastKeyTs = s.lastKeyTs := by
  cases k <;> rfl

@[simp] theorem updateMod_typedChars (s : St) (k : Key) (d : Bool) :
    (updateMod s k d).typedChars = s.typedChars := by
  cases k <;> rfl

@[simp] theorem updateMod_typingId (s : St) (k : Key) (d : Bool) :
    (updateMod s k d).typingId = s.typingId := by
  cases k <;> rfl

@[simp] theorem updateMod_activeModBlock (s : St) (k : Key) (d : Bool) :
    (updateMod s k d).activeModBlock = s.activeModBlock := by
  cases k <;> rfl

@[simp] theorem updateMod_clickLeft (s : St) (k : Key) (d : Bool) :
    (updateMod s k d).clickLeft = s.clickLeft := by
  cases k <;> rfl

@[simp] theorem updateMod_clickRight (s : St) (k : Key) (d : Bool) :
    (updateMod s k d).clickRight = s.clickRight := by
  cases k <;> rfl

@[simp] theorem updateMod_debug (s : St) (k : Key) (d : Bool) :
    (updateMod s k d).debug = s.debug := by
  cases k <;> rfl

@[simp] theorem updateMod_ssDirSome (s : St) (k : Key) (d : Bool) :
    (updateMod s k d).ssDirSome = s.ssDirSome := by
  cases k <;> rfl

@[simp] theorem updateMod_ssIdx (s : St) (k : Key) (d : Bool) :
    (updateMod s k d).ssIdx = s.ssIdx := by
  cases k <;> rfl

@[simp] theorem updateMod_ssRequests (s : St) (k : Key) (d : Bool) :
    (updateMod s k d).ssRequests = s.ssRequests := by
  cases k <;> rfl

@[simp] theorem beginOrContinue_origin (s : St) (ts : ℚ) (tok : String) :
    (beginOrContinue s ts tok).origin = s.origin := by
  unfold beginOrContinue; cases h : s.typingStart <;> simp [h]

@[simp] theorem beginOrContinue_actions (s : St) (ts : ℚ) (tok : String) :
    (beginOrContinue s ts tok).actions = s.actions := by
  unfold beginOrContinue; cases h : s.typingStart <;> simp [h]

@[simp] theorem beginOrContinue_activeModBlock (s : St) (ts : ℚ) (tok : String) :
    (beginOrContinue s ts tok).activeModBlock = s.activeModBlock := by
  unfold beginOrContinue; cases h : s.typingStart <;> simp [h]

@[simp] theorem beginOrContinue_clickLeft (s : St) (ts : ℚ) (tok : String) :
    (beginOrContinue s ts tok).clickLeft = s.clickLeft := by
  unfold beginOrContinue; cases h : s.typingStart <;> simp [h]

@[simp] theorem beginOrContinue_clickRight (s : St) (ts : ℚ) (tok : String) :
    (beginOrContinue s ts tok).clickRight = s.clickRight := by
  unfold beginOrContinue; cases h : s.typingStart <;> simp [h]

@[simp] theorem beginOrContinue_commandDown (s : St) (ts : ℚ) (tok : String) :
    (beginOrContinue s ts tok).commandDown = s.commandDown := by
  unfold beginOrContinue; cases h : s.typingStart <;> simp [h]

@[simp] theorem beginOrContinue_ctrlDown (s : St) (ts : ℚ) (tok : String) :
    (beginOrContinue s ts tok).ctrlDown = s.ctrlDown := by
  unfold beginOrContinue; cases h : s.typingStart <;> simp [h]

@[simp] theorem beginOrContinue_shiftDown (s : St) (ts : ℚ) (tok : String) :
    (beginOrContinue s ts tok).shiftDown = s.shiftDown := by
  unfold beginOrContinue; cases h : s.typingStart <;> simp [h]

@[simp] theorem beginOrContinue_optionDown (s : St) (ts : ℚ) (tok : String) :
    (beginOrContinue s ts tok).optionDown = s.optionDown := by
  unfold beginOrContinue; cases h : s.typingStart <;> simp [h]

theorem beginOrContinue_typedChars (s : St) (ts : ℚ) (tok : String) :
    (beginOrContinue s ts tok).typedChars = s.typedChars ++ [tok] := by
  unfold beginOrContinue; cases h : s.typingStart <;> simp [h]

theorem beginOrContinue_typingStart (s : St) (ts : ℚ) (tok : String) :
    (beginOrContinue s ts tok).typingStart.isSome = true := by
  unfold beginOrContinue; cases h : s.typingStart <;> simp [h]

theorem flushTick_eq (s : St) (now : ℚ) :
    flushTick s now = s ∨ flushTick s now = finalizeTyping s now := by
  unfold flushTick
  cases h1 : s.typingStart <;> cases h2 : s.lastKeyTs
  · exact Or.inl rfl
  · exact Or.inl rfl
  · exact Or.inl rfl
  · rename_i last
    dsimp only
    by_cases hgt : now - last > typingGap
    · rw [if_pos hgt]; exact Or.inr rfl
    · rw [if_neg hgt]; exact Or.inl rfl

theorem flushTick_activeModBlock (s : St) (now : ℚ) :
    (flushTick s now).activeModBlock = s.activeModBlock := by
  rcases flushTick_eq s now with h | h <;> rw [h] <;> simp

theorem flushTick_actions_sub (s : St) (now : ℚ) (a : Action)
    (ha : a ∈ (flushTick s now).actions) : a ∈ s.actions ∨ a.kind = "typing" := by
  rcases flushTick_eq s now with h | h <;> rw [h] at ha
  · exact Or.inl ha
  · exact finalizeTyping_actions_sub s now a ha

theorem onClick_press_actions (s : St) (x y : ℤ) (b : MButton) (now : ℚ) :
    (onClick s x y b true now).actions = s.actions := by
  unfold onClick; cases b <;> simp

theorem onClick_press_pending (s : St) (x y : ℤ) (b : MButton) (now : ℚ)
    (hb : b ≠ MButton.middle) :
    getPending (onClick s x y b true now) b = some ⟨x, y, now, s.ssIdx, currentModSet s⟩ := by
  cases b
  · simp [onClick, getPending, setPending, currentModSet]
  · simp [onClick, getPending, setPending, currentModSet]
  · exact absurd rfl hb

theorem onClick_release_eq (s : St) (x y : ℤ) (b : MButton) (now : ℚ) (p : Pending)
    (hp : getPending s b = some p) :
    onClick s x y b false now =
      capture
        { finalizeTyping (setPending s b none) now with
          actions := (finalizeTyping (setPending s b none) now).actions ++
            [⟨MButton.name b ++ "_click", clickDesc (MButton.name b ++ "_click") p x y,
              p.t - s.origin, now - s.origin, p.idx⟩] }
        p.idx phEnd (now - s.origin) := by
  unfold onClick
  rw [hp]
  simp

theorem onClick_release_actions (s : St) (x y : ℤ) (b : MButton) (now : ℚ) (p : Pending)
    (hp : getPending s b = some p) :
    (onClick s x y b false now).actions =
      (finalizeTyping (setPending s b none) now).actions ++
        [⟨MButton.name b ++ "_click", clickDesc (MButton.name b ++ "_click") p x y,
          p.t - s.origin, now - s.origin, p.idx⟩] := by
  rw [onClick_release_eq s x y b now p hp]; simp

theorem onClick_release_noop (s : St) (x y : ℤ) (b : MButton) (now : ℚ)
    (hp : getPending s b = none) :
    onClick s x y b false now = s := by
  unfold onClick; rw [hp]; simp

theorem onClick_activeModBlock (s : St) (x y : ℤ) (b : MButton) (pressed : Bool) (now : ℚ) :
    (onClick s x y b pressed now).activeModBlock = s.activeModBlock := by
  cases pressed
  · cases hp : getPending s b with
    | none => rw [onClick_release_noop s x y b now hp]
    | some p => rw [onClick_release_eq s x y b now p hp]; simp
  · unfold onClick; cases b <;> simp [setPending]

theorem onClick_actions_sub (s : St) (x y : ℤ) (b : MButton) (pressed : Bool) (now : ℚ)
    (a : Action) (ha : a ∈ (onClick s x y b pressed now).actions) :
    a ∈ s.actions ∨ a.kind = "typing" ∨ a.kind = MButton.name b ++ "_click" := by
  cases pressed
  · cases hp : getPending s b with
    | none => rw [onClick_release_noop s x y b now hp] at ha; exact Or.inl ha
    | some p =>
      rw [onClick_release_actions s x y b now p hp] at ha
      rcases List.mem_append.1 ha with h1 | h1
      · rcases finalizeTyping_actions_sub _ _ _ h1 with h2 | h2
        · rw [setPending_actions] at h2; exact Or.inl h2
        · exact Or.inr (Or.inl h2)
      · right; right; simp at h1; rw [h1]
  · rw [onClick_press_actions] at ha; exact Or.inl ha

theorem onPress_mod (s : St) (k : Key) (now : ℚ) (hk : isModifierKey k = true) :
    onPress s k now = maybeRollover (updateMod s k true) now := by
  unfold onPress; simp [hk]

theorem onPress_combo_actions (s : St) (k : Key) (now : ℚ)
    (hk : isModifierKey k = false) (hc : comboCtx s = true) :
    (onPress s k now).actions = (finalizeTyping (markUsed s) now).actions ++
      [⟨"key_combo", String.intercalate plus ((currentModSet s).names ++ [keyName k]),
        now - s.origin, now - s.origin, s.ssIdx⟩] := by
  unfold onPress
  simp [hk, comboCtx_markUsed, hc]

theorem onPress_combo_requests (s : St) (k : Key) (now : ℚ)
    (hk : isModifierKey k = false) (hc : comboCtx s = true) :
    (onPress s k now).ssRequests = (finalizeTyping (markUsed s) now).ssRequests ++
      (if s.debug && s.ssDirSome then
        [(s.ssIdx, phStart, now - s.origin), (s.ssIdx, phEnd, now - s.origin)]
      else []) := by
  unfold onPress
  simp only [hk, Bool.false_eq_true, if_false, comboCtx_markUsed, hc, if_true]
  by_cases hd : s.debug = true ∧ s.ssDirSome = true
  · simp [capture_ssRequests, hd]
  · simp [capture_ssRequests, hd]

theorem onPress_noncombo_eq (s : St) (k : Key) (now : ℚ)
    (hk : isModifierKey k = false) (hc : comboCtx s = false) :
    onPress s k now =
      (match tokenOf k with
      | some tok => beginOrContinue (markUsed s) now tok
      | none => markUsed s) := by
  unfold onPress; simp [hk, comboCtx_markUsed, hc]

theorem onPress_noncombo_actions (s : St) (k : Key) (now : ℚ)
    (hk : isModifierKey k = false) (hc : comboCtx s = false) :
    (onPress s k now).actions = s.actions := by
  rw [onPress_noncombo_eq s k now hk hc]
  cases tokenOf k <;> simp

theorem onPress_block (s : St) (k : Key) (now : ℚ) (hk : isModifierKey k = false) :
    (onPress s k now).activeModBlock = (markUsed s).activeModBlock := by
  by_cases hc : comboCtx s = true
  · unfold onPress; simp [hk, comboCtx_markUsed, hc]
  · simp only [Bool.not_eq_true] at hc
    rw [onPress_noncombo_eq s k now hk hc]
    cases tokenOf k <;> simp

theorem onPress_actions_sub (s : St) (k : Key) (now : ℚ) (a : Action)
    (ha : a ∈ (onPress s k now).actions) :
    a ∈ s.actions ∨ a.kind = "typing" ∨ a.kind = "modifier_hold"
      ∨ (a.kind = "key_combo" ∧ a.start = a.end_) := by
  by_cases hk : isModifierKey k = true
  · rw [onPress_mod s k now hk] at ha
    rcases maybeRollover_actions_sub _ _ _ ha with h1 | h1
    · rw [updateMod_actions] at h1; exact Or.inl h1
    · exact Or.inr (Or.inr (Or.inl h1))
  · simp only [Bool.not_eq_true] at hk
    by_cases hc : comboCtx s = true
    · rw [onPress_combo_actions s k now hk hc] at ha
      rcases List.mem_append.1 ha with h1 | h1
      · rcases finalizeTyping_actions_sub _ _ _ h1 with h2 | h2
        · rw [markUsed_actions] at h2; exact Or.inl h2
        · exact Or.inr (Or.inl h2)
      · simp at h1; right; right; right; rw [h1]; exact ⟨rfl, rfl⟩
    · simp only [Bool.not_eq_true] at hc
      rw [onPress_noncombo_actions s k now hk hc] at ha
      exact Or.inl ha

theorem block_map_id (o : Option ModBlock) :
    o.map (fun b => (⟨b.mods, b.t0, b.idx, b.used || false⟩ : ModBlock)) = o := by
  cases o with
  | none => rfl
  | some b => cases b; simp

theorem stepEv_block (s : St) (e : Event) (he : nonModEvent e = true) :
    (stepEv s e).activeModBlock
      = s.activeModBlock.map (fun b => ⟨b.mods, b.t0, b.idx, b.used || isPressEvent e⟩) := by
  cases e with
  | press k t =>
    simp only [nonModEvent, Bool.not_eq_true'] at he
    show (onPress s k t).activeModBlock = _
    rw [onPress_block s k t he, markUsed_activeModBlock]
    simp [isPressEvent]
  | release k t =>
    simp only [nonModEvent, Bool.not_eq_true'] at he
    show (onRelease s k t).activeModBlock = _
    unfold onRelease
    rw [if_neg (by simp [he])]
    rw [show isPressEvent (Event.release k t) = false from rfl, block_map_id]
  | click x y b pressed t =>
    show (onClick s x y b pressed t).activeModBlock = _
    rw [onClick_activeModBlock]
    rw [show isPressEvent (Event.click x y b pressed t) = false from rfl, block_map_id]
  | flush t =>
    show (flushTick s t).activeModBlock = _
    rw [flushTick_activeModBlock]
    rw [show isPressEvent (Event.flush t) = false from rfl, block_map_id]

theorem runEvents_cons (s : St) (e : Event) (evs : List Event) :
    runEvents s (e :: evs) = runEvents (stepEv s e) evs := rfl

theorem runEvents_block (s : St) (evs : List Event)
    (h : ∀ e ∈ evs, nonModEvent e = true) :
    (runEvents s evs).activeModBlock
      = s.activeModBlock.map
          (fun b => ⟨b.mods, b.t0, b.idx, b.used || evs.any isPressEvent⟩) := by
  induction evs generalizing s with
  | nil =>
    show s.activeModBlock = _
    simp only [List.any_nil]
    exact (block_map_id s.activeModBlock).symm
  | cons e evs ih =>
    rw [runEvents_cons, ih _ (fun x hx => h x (List.mem_cons_of_mem _ hx)),
      stepEv_block s e (h e (List.mem_cons_self _ _))]
    cases hb : s.activeModBlock with
    | none => rfl
    | some b => simp [Bool.or_assoc]

theorem stepEv_actions_sub (s : St) (e : Event) (a : Action)
    (ha : a ∈ (stepEv s e).actions) :
    a ∈ s.actions ∨ (a.kind = "key_combo" → a.start = a.end_) := by
  cases e with
  | press k t =>
    rcases onPress_actions_sub s k t a ha with h | h | h | h
    · exact Or.inl h
    · right; intro hk; rw [h] at hk; exact absurd hk (by decide)
    · right; intro hk; rw [h] at hk; exact absurd hk (by decide)
    · exact Or.inr (fun _ => h.2)
  | release k t =>
    rw [show stepEv s (Event.release k t) = onRelease s k t from rfl] at ha
    unfold onRelease at ha
    split at ha
    · rcases maybeRollover_actions_sub _ _ _ ha with h | h
      · rw [updateMod_actions] at h; exact Or.inl h
      · right; intro hk; rw [h] at hk; exact absurd hk (by decide)
    · exact Or.inl ha
  | click x y b pressed t =>
    rcases onClick_actions_sub s x y b pressed t a ha with h | h | h
    · exact Or.inl h
    · right; intro hk; rw [h] at hk; exact absurd hk (by decide)
    · right; intro hk; rw [h] at hk
      exact absurd hk (by cases b <;> decide)
  | flush t =>
    rcases flushTick_actions_sub s t a ha with h | h
    · exact Or.inl h
    · right; intro hk; rw [h] at hk; exact absurd hk (by decide)

theorem runEvents_combo_inst (s : St) (evs : List Event)
    (h : ∀ a ∈ s.actions, a.kind = "key_combo" → a.start = a.end_) :
    ∀ a ∈ (runEvents s evs).actions, a.kind = "key_combo" → a.start = a.end_ := by
  induction evs generalizing s with
  | nil => exact h
  | cons e evs ih =>
    rw [runEvents_cons]
    refine ih _ (fun a ha => ?_)
    rcases stepEv_actions_sub s e a ha with h1 | h1
    · exact h a h1
    · exact h1

@[simp] theorem comboCtx_capture (s : St) (i : Nat) (ph : String) (r : ℚ) :
    comboCtx (capture s i ph r) = comboCtx s := by
  unfold comboCtx; simp

@[simp] theorem comboCtx_beginOrContinue (s : St) (ts : ℚ) (tok : String) :
    comboCtx (beginOrContinue s ts tok) = comboCtx s := by
  unfold comboCtx; simp

theorem onPress_typing_step (s : St) (k : Key) (t : ℚ)
    (hk : isModifierKey k = false) (hc : comboCtx s = false) :
    (onPress s k t).typedChars = s.typedChars ++ (tokenOf k).toList
    ∧ comboCtx (onPress s k t) = false
    ∧ (onPress s k t).typingStart.isSome = (s.typingStart.isSome || (tokenOf k).isSome)
    ∧ (onPress s k t).actions = s.actions := by
  rw [onPress_noncombo_eq s k t hk hc]
  cases htok : tokenOf k with
  | none =>
    refine ⟨by simp, ?_, by simp, by simp⟩
    rw [comboCtx_markUsed]; exact hc
  | some tok =>
    refine ⟨?_, ?_, ?_, by simp⟩
    · rw [beginOrContinue_typedChars, markUsed_typedChars]; rfl
    · rw [comboCtx_beginOrContinue, comboCtx_markUsed]; exact hc
    · rw [beginOrContinue_typingStart]; simp

theorem runPresses_typing (s : St) (ks : List (Key × ℚ))
    (hc : comboCtx s = false) (hks : ∀ p ∈ ks, isModifierKey p.1 = false) :
    (runEvents s (ks.map fun p => Event.press p.1 p.2)).typedChars
        = s.typedChars ++ ks.filterMap (fun p => tokenOf p.1)
    ∧ (runEvents s (ks.map fun p => Event.press p.1 p.2)).typingStart.isSome
        = (s.typingStart.isSome || ks.any fun p => (tokenOf p.1).isSome)
    ∧ (runEvents s (ks.map fun p => Event.press p.1 p.2)).actions = s.actions := by
  induction ks generalizing s with
  | nil =>
    refine ⟨by simp [runEvents], by simp [runEvents], by simp [runEvents]⟩
  | cons p ks ih =>
    have hstep := onPress_typing_step s p.1 p.2 (hks p (List.mem_cons_self _ _)) hc
    have hrest := ih (onPress s p.1 p.2) hstep.2.1
      (fun q hq => hks q (List.mem_cons_of_mem _ hq))
    rw [List.map_cons, runEvents_cons]
    have hse : stepEv s (Event.press p.1 p.2) = onPress s p.1 p.2 := rfl
    rw [hse]
    refine ⟨?_, ?_, ?_⟩
    · rw [hrest.1, hstep.1, List.append_assoc]
      congr 1
      cases htok : tokenOf p.1 <;> simp [List.filterMap_cons, htok]
    · rw [hrest.2.1, hstep.2.2.1, List.any_cons, Bool.or_assoc]
    · rw [hrest.2.2, hstep.2.2.2]

theorem singleton_ne_empty (c : Char) : String.singleton c ≠ "" := by
  intro h
  have h1 : (String.singleton c).length = ("" : String).length := by rw [h]
  simp at h1

theorem tokenOf_ne_empty (k : Key) (tok : String) (h : tokenOf k = some tok) : tok ≠ "" := by
  cases k with
  | kc c p =>
    simp only [tokenOf] at h
    split at h
    · injection h with h'; rw [← h']; exact singleton_ne_empty c
    · exact absurd h (by simp)
  | enter => simp [tokenOf, specialTypingKey] at h; rw [← h]; decide
  | backspace => simp [tokenOf, specialTypingKey] at h; rw [← h]; decide
  | delete => simp [tokenOf, specialTypingKey] at h; rw [← h]; decide
  | tab => simp [tokenOf, specialTypingKey] at h; rw [← h]; decide
  | space => simp [tokenOf, specialTypingKey] at h; rw [← h]; decide
  | cmdK => simp [tokenOf, specialTypingKey] at h
  | cmdR => simp [tokenOf, specialTypingKey] at h
  | ctrlK => simp [tokenOf, specialTypingKey] at h
  | ctrlR => simp [tokenOf, specialTypingKey] at h
  | shiftK => simp [tokenOf, specialTypingKey] at h
  | shiftR => simp [tokenOf, specialTypingKey] at h
  | altK => simp [tokenOf, specialTypingKey] at h
  | altR => simp [tokenOf, specialTypingKey] at h
  | other n => simp [tokenOf, specialTypingKey] at h

theorem length_pos_of_ne_empty (a : String) (h : a ≠ "") : 0 < a.length := by
  rcases Nat.eq_zero_or_pos a.length with h0 | hpos
  · exfalso
    apply h
    cases a with
    | mk data =>
      have hd : data = [] := List.length_eq_zero.1 h0
      rw [hd]
  · exact hpos

theorem foldl_append_length (l : List String) (init : String) :
    (l.foldl (fun r s => r ++ s) init).length = init.length + (l.map String.length).sum := by
  induction l generalizing init with
  | nil => simp
  | cons a l ih =>
    rw [List.foldl_cons, ih, String.length_append, List.map_cons, List.sum_cons]
    omega

theorem join_ne_empty (l : List String) (h1 : l ≠ []) (h2 : ∀ x ∈ l, x ≠ "") :
    String.join l ≠ "" := by
  intro he
  have hlen : (String.join l).length = 0 := by rw [he]; rfl
  unfold String.join at hlen
  rw [foldl_append_length] at hlen
  cases l with
  | nil => exact h1 rfl
  | cons a l =>
    rw [List.map_cons, List.sum_cons] at hlen
    have ha := length_pos_of_ne_empty a (h2 a (List.mem_cons_self _ _))
    omega

/-! Alignment-pass lemmas -/

theorem idxLe_trans (a b c : Action) (h1 : idxLe a b) (h2 : idxLe b c) : idxLe a c := by
  simp only [idxLe, decide_eq_true_eq] at h1 h2 ⊢
  omega

theorem idxLe_total (a b : Action) : idxLe a b || idxLe b a := by
  simp only [idxLe]
  rcases Nat.le_total a.ss_idx b.ss_idx with h | h <;> simp [h]

theorem alignActions_perm (fps : ℕ) (t0 : ℚ) (log : List Action) :
    (alignActions fps t0 log).Perm (log.map (snapAction fps t0)) :=
  List.mergeSort_perm _ _

theorem alignActions_sorted (fps : ℕ) (t0 : ℚ) (log : List Action) :
    (alignActions fps t0 log).Pairwise (fun a b => a.ss_idx ≤ b.ss_idx) := by
  have h : ((log.map (snapAction fps t0)).mergeSort idxLe).Pairwise
      (fun a b => idxLe a b = true) :=
    List.sorted_mergeSort (fun a b c h1 h2 => idxLe_trans a b c h1 h2)
      (fun a b => idxLe_total a b) (log.map (snapAction fps t0))
  exact h.imp (fun hab => by simpa [idxLe] using hab)

theorem snap_frame (fps : ℕ) (t0 raw : ℚ) :
    ∃ z : ℤ, snap raw fps t0 = (z : ℚ) / fps :=
  ⟨round ((raw - t0) * (fps : ℚ)), rfl⟩

theorem snap_nearest (fps : ℕ) (hf : 0 < fps) (t0 raw : ℚ) :
    |snap raw fps t0 - (raw - t0)| ≤ 1 / (2 * fps)
    ∧ ∀ z : ℤ, |snap raw fps t0 - (raw - t0)| ≤ |(z : ℚ) / fps - (raw - t0)| := by
  have hf' : (0 : ℚ) < fps := by exact_mod_cast hf
  have hfne : (fps : ℚ) ≠ 0 := ne_of_gt hf'
  have hraw : raw - t0 = (raw - t0) * fps / fps := by field_simp
  have habs : ∀ z : ℤ, |(z : ℚ) / fps - (raw - t0)| = |(z : ℚ) - (raw - t0) * fps| / fps := by
    intro z
    have he : (z : ℚ) / fps - (raw - t0) = ((z : ℚ) - (raw - t0) * fps) / fps := by
      field_simp
      ring
    rw [he, abs_div, abs_of_pos hf']
  have hsnap : snap raw fps t0 = ((round ((raw - t0) * (fps : ℚ)) : ℤ) : ℚ) / fps := rfl
  constructor
  · rw [hsnap, habs]
    have h1 : |((round ((raw - t0) * (fps : ℚ)) : ℤ) : ℚ) - (raw - t0) * fps| ≤ 1 / 2 := by
      have h2 := abs_sub_round ((raw - t0) * (fps : ℚ))
      rwa [abs_sub_comm] at h2
    calc |((round ((raw - t0) * (fps : ℚ)) : ℤ) : ℚ) - (raw - t0) * fps| / fps
        ≤ (1 / 2) / fps := by
          exact (div_le_div_iff_of_pos_right hf').mpr h1
      _ = 1 / (2 * fps) := by rw [div_div]
  · intro z
    rw [hsnap, habs, habs]
    refine (div_le_div_iff_of_pos_right hf').mpr ?_
    have h3 := round_le ((raw - t0) * (fps : ℚ)) z
    rwa [abs_sub_comm, abs_sub_comm ((raw - t0) * (fps : ℚ)) (z : ℚ)] at h3

/-! Claims -/

/-- C1 counterexample: pressing the left button at (10,10) and releasing
at (50,50) — differing coordinates — produces an Action of kind
`left_click`, not `drag`; the code builds the kind from the button name
alone and never produces a drag kind. -/
theorem C1_counterexample :
    (runEvents (mkTracker 0 false false)
        [Event.click 10 10 MButton.left true 1,
         Event.click 50 50 MButton.left false 2]).actions
      = [⟨"left_click", "left_click (10,10) → (50,50)", 1, 2, 1⟩]
    ∧ "left_click" ≠ "drag" := by
  constructor
  · norm_num [runEvents, stepEv, onClick, onPress, onRelease, flushTick, stopTracker, mkTracker,
      capture, currentModSet, getPending, setPending, finalizeTyping, beginOrContinue,
      maybeRollover, openBlock, markUsed, updateMod, clickDesc, typedDesc, tokenOf,
      specialTypingKey, isModifierKey, keyName, comboCtx, ModSet.isEmpty, ModSet.names,
      ModSet.empty, MButton.name, plus, apos, phStart, phEnd, typingGap, List.foldl]
    split
    all_goals simp_all
    rename_i p hp
    subst hp
    norm_num
    all_goals decide
  · decide

/-- C1 (amended): for every press of a tracked button followed by its
matching release, the finalized Action's kind is the plain click named
by button identity (`left_click`/`right_click`) regardless of whether
the release coordinates differ from the press coordinates; no `drag`
kind is ever produced, the displacement being visible only in the
description's coordinate pair. -/
theorem C1_click_kind_ignores_displacement (s : St) (x y : ℤ) (b : MButton) (now : ℚ)
    (p : Pending) (hp : getPending s b = some p) :
    (onClick s x y b false now).actions
      = (finalizeTyping (setPending s b none) now).actions ++
        [⟨MButton.name b ++ "_click", clickDesc (MButton.name b ++ "_click") p x y,
          p.t - s.origin, now - s.origin, p.idx⟩]
    ∧ MButton.name b ++ "_click" ≠ "drag" := by
  refine ⟨onClick_release_actions s x y b now p hp, ?_⟩
  cases b <;> decide

/-- C1 auxiliary fact for the witness: the concrete press stores the
expected pending gesture. -/
theorem wPending_left :
    getPending (onClick (mkTracker 0 false false) 10 10 MButton.left true 1) MButton.left
      = some ⟨10, 10, 1, 1, ModSet.empty⟩ := by
  norm_num [runEvents, stepEv, onClick, onPress, onRelease, flushTick, stopTracker, mkTracker,
      capture, currentModSet, getPending, setPending, finalizeTyping, beginOrContinue,
      maybeRollover, openBlock, markUsed, updateMod, clickDesc, typedDesc, tokenOf,
      specialTypingKey, isModifierKey, keyName, comboCtx, ModSet.isEmpty, ModSet.names,
      ModSet.empty, MButton.name, plus, apos, phStart, phEnd, typingGap, List.foldl]
  decide

/-- C1 witness: the amended theorem applied to a concrete press at
(10,10) and release at (50,50). -/
theorem C1_witness : MButton.name MButton.left ++ "_click" ≠ "drag" :=
  (C1_click_kind_ignores_displacement
    (onClick (mkTracker 0 false false) 10 10 MButton.left true 1)
    50 50 MButton.left 2 ⟨10, 10, 1, 1, ModSet.empty⟩ wPending_left).2

/-- C2: evaluating the code at the failing input.  Hold command from
time 1, press c at time 2 (so the hold is used), stop at time 3 with
command still held: the log contains only the `key_combo` Action, no
`modifier_hold` is emitted, and the used hold is still open after
`stop` — the rollover check sees an unchanged modifier set and returns
without closing it, contradicting the claim (and the intent of the
`close still-open modifier block` comment in `stop`). -/
theorem C2_stop_leaves_used_hold_unemitted :
    (stopTracker (runEvents (mkTracker 0 false false)
        [Event.press Key.cmdK 1, Event.press (Key.kc (Char.ofNat 99) true) 2]) 3 3).actions
      = [⟨"key_combo", "command+c", 2, 2, 2⟩]
    ∧ (stopTracker (runEvents (mkTracker 0 false false)
        [Event.press Key.cmdK 1, Event.press (Key.kc (Char.ofNat 99) true) 2]) 3 3).activeModBlock
      = some ⟨⟨false, true, false, false⟩, 1, 1, true⟩
    ∧ ∀ a ∈ (stopTracker (runEvents (mkTracker 0 false false)
        [Event.press Key.cmdK 1, Event.press (Key.kc (Char.ofNat 99) true) 2]) 3 3).actions,
        a.kind ≠ "modifier_hold" := by
  refine ⟨?_, ?_, ?_⟩
  · norm_num [runEvents, stepEv, onClick, onPress, onRelease, flushTick, stopTracker, mkTracker,
      capture, currentModSet, getPending, setPending, finalizeTyping, beginOrContinue,
      maybeRollover, openBlock, markUsed, updateMod, clickDesc, typedDesc, tokenOf,
      specialTypingKey, isModifierKey, keyName, comboCtx, ModSet.isEmpty, ModSet.names,
      ModSet.empty, MButton.name, plus, apos, phStart, phEnd, typingGap, List.foldl]
    decide
  · norm_num [runEvents, stepEv, onClick, onPress, onRelease, flushTick, stopTracker, mkTracker,
      capture, currentModSet, getPending, setPending, finalizeTyping, beginOrContinue,
      maybeRollover, openBlock, markUsed, updateMod, clickDesc, typedDesc, tokenOf,
      specialTypingKey, isModifierKey, keyName, comboCtx, ModSet.isEmpty, ModSet.names,
      ModSet.empty, MButton.name, plus, apos, phStart, phEnd, typingGap, List.foldl]
  · intro a ha
    norm_num [runEvents, stepEv, onClick, onPress, onRelease, flushTick, stopTracker, mkTracker,
      capture, currentModSet, getPending, setPending, finalizeTyping, beginOrContinue,
      maybeRollover, openBlock, markUsed, updateMod, clickDesc, typedDesc, tokenOf,
      specialTypingKey, isModifierKey, keyName, comboCtx, ModSet.isEmpty, ModSet.names,
      ModSet.empty, MButton.name, plus, apos, phStart, phEnd, typingGap, List.foldl] at ha
    rw [ha]
    decide

/-- C3 counterexample: type the character a at time 1, let the idle
watchdog fire at time 7.  The emitted typing Action's end offset is 7
(the finalisation time), not 1 (the last-token time), and the end-phase
capture request is queued at offset 7 as well. -/
theorem C3_counterexample :
    (runEvents (mkTracker 0 true true)
        [Event.press (Key.kc (Char.ofNat 97) true) 1, Event.flush 7]).actions
      = [⟨"typing", typedDesc ("a"), 1, 7, 1⟩]
    ∧ (runEvents (mkTracker 0 true true)
        [Event.press (Key.kc (Char.ofNat 97) true) 1, Event.flush 7]).ssRequests
      = [(1, phStart, 1), (1, phEnd, 7)]
    ∧ (7 : ℚ) ≠ 1 := by
  refine ⟨?_, ?_, by norm_num⟩
  · norm_num [runEvents, stepEv, onClick, onPress, onRelease, flushTick, stopTracker, mkTracker,
      capture, currentModSet, getPending, setPending, finalizeTyping, beginOrContinue,
      maybeRollover, openBlock, markUsed, updateMod, clickDesc, typedDesc, tokenOf,
      specialTypingKey, isModifierKey, keyName, comboCtx, ModSet.isEmpty, ModSet.names,
      ModSet.empty, MButton.name, plus, apos, phStart, phEnd, typingGap, List.foldl]
    decide
  · norm_num [runEvents, stepEv, onClick, onPress, onRelease, flushTick, stopTracker, mkTracker,
      capture, currentModSet, getPending, setPending, finalizeTyping, beginOrContinue,
      maybeRollover, openBlock, markUsed, updateMod, clickDesc, typedDesc, tokenOf,
      specialTypingKey, isModifierKey, keyName, comboCtx, ModSet.isEmpty, ModSet.names,
      ModSet.empty, MButton.name, plus, apos, phStart, phEnd, typingGap, List.foldl]

/-- C3 (amended): whenever an open, non-empty typing phrase is
finalized, the emitted typing Action spans phrase-start to the
finalisation time — its end offset equals the timestamp `ts` passed to
the finalizer (the release / combo / watchdog / shutdown time), not the
last-token time — and the end-phase capture request is enqueued at that
same finalisation time. -/
theorem C3_finalize_uses_finalization_time (s : St) (ts t0 : ℚ) (tid : Nat)
    (h1 : s.typingStart = some t0) (h2 : s.typingId = some tid)
    (h3 : String.join s.typedChars ≠ "") :
    (finalizeTyping s ts).actions = s.actions ++
      [⟨"typing", typedDesc (String.join s.typedChars), t0 - s.origin, ts - s.origin, tid⟩]
    ∧ (finalizeTyping s ts).ssRequests = s.ssRequests ++
      (if s.debug && s.ssDirSome then [(tid, phEnd, ts - s.origin)] else []) := by
  constructor
  · simpa [h2] using finalizeTyping_actions_eq s ts t0 h1 h3
  · exact finalizeTyping_requests_eq s ts t0 tid h1 h2

/-- C3 auxiliary facts for the witness: the fixture `wPressA` has an
open phrase started at 1 with capture index 1 and non-empty text. -/
theorem wPressA_phrase :
    wPressA.typingStart = some 1 ∧ wPressA.typingId = some 1
    ∧ String.join wPressA.typedChars ≠ "" := by
  refine ⟨?_, ?_, ?_⟩ <;> norm_num [wPressA, runEvents, stepEv, onClick, onPress, onRelease, flushTick, stopTracker, mkTracker,
      capture, currentModSet, getPending, setPending, finalizeTyping, beginOrContinue,
      maybeRollover, openBlock, markUsed, updateMod, clickDesc, typedDesc, tokenOf,
      specialTypingKey, isModifierKey, keyName, comboCtx, ModSet.isEmpty, ModSet.names,
      ModSet.empty, MButton.name, plus, apos, phStart, phEnd, typingGap, List.foldl] <;> decide

/-- C3 witness: the amended theorem applied to the concrete open phrase
of `wPressA`, finalized at time 7. -/
theorem C3_witness :
    (finalizeTyping wPressA 7).actions = wPressA.actions ++
      [⟨"typing", typedDesc (String.join wPressA.typedChars),
        1 - wPressA.origin, 7 - wPressA.origin, 1⟩]
    ∧ (finalizeTyping wPressA 7).ssRequests = wPressA.ssRequests ++
      (if wPressA.debug && wPressA.ssDirSome then [(1, phEnd, 7 - wPressA.origin)] else []) :=
  C3_finalize_uses_finalization_time wPressA 7 1 1
    wPressA_phrase.1 wPressA_phrase.2.1 wPressA_phrase.2.2

/-- C4: a `modifier_hold` Action is emitted for a hold iff at least one
non-modifier key was pressed while the set was continuously held.
Part 1: when the rollover closes an active block (the modifier set
changed), the hold Action is appended exactly when the block's used
flag is set.  Part 2: across any events that are not modifier
presses/releases, the used flag of the active block becomes true
exactly when some key press occurs (key presses are the only events
that mark the block used).  Part 3: holding shift alone and releasing
it with no intervening keypress yields zero Actions. -/
theorem C4_modifier_hold_iff_used :
    (∀ (s : St) (ts : ℚ) (b : ModBlock), s.activeModBlock = some b →
      currentModSet s ≠ b.mods →
      (maybeRollover s ts).actions = s.actions ++
        (if b.used then
          [⟨"modifier_hold", String.intercalate plus b.mods.names ++ " held",
            b.t0 - s.origin, ts - s.origin, b.idx⟩]
        else []))
    ∧ (∀ (s : St) (evs : List Event), (∀ e ∈ evs, nonModEvent e = true) →
      (runEvents s evs).activeModBlock
        = s.activeModBlock.map
            (fun b => ⟨b.mods, b.t0, b.idx, b.used || evs.any isPressEvent⟩))
    ∧ (runEvents (mkTracker 0 false false)
        [Event.press Key.shiftK 1, Event.release Key.shiftK 2]).actions = [] := by
  refine ⟨?_, ?_, by norm_num [runEvents, stepEv, onClick, onPress, onRelease, flushTick, stopTracker, mkTracker,
      capture, currentModSet, getPending, setPending, finalizeTyping, beginOrContinue,
      maybeRollover, openBlock, markUsed, updateMod, clickDesc, typedDesc, tokenOf,
      specialTypingKey, isModifierKey, keyName, comboCtx, ModSet.isEmpty, ModSet.names,
      ModSet.empty, MButton.name, plus, apos, phStart, phEnd, typingGap, List.foldl]⟩
  · exact fun s ts b h hne => maybeRollover_close_actions s ts b h hne
  · exact fun s evs h => runEvents_block s evs h

/-- C4 auxiliary facts for the witness: the fixture `wShiftUsed` holds
an active, used shift block whose set differs from the (now empty)
current modifier state. -/
theorem wShiftUsed_block :
    wShiftUsed.activeModBlock = some ⟨⟨false, false, false, true⟩, 1, 1, true⟩
    ∧ currentModSet wShiftUsed ≠ (⟨⟨false, false, false, true⟩, 1, 1, true⟩ : ModBlock).mods := by
  constructor <;> norm_num [wShiftUsed, runEvents, stepEv, onClick, onPress, onRelease, flushTick, stopTracker, mkTracker,
      capture, currentModSet, getPending, setPending, finalizeTyping, beginOrContinue,
      maybeRollover, openBlock, markUsed, updateMod, clickDesc, typedDesc, tokenOf,
      specialTypingKey, isModifierKey, keyName, comboCtx, ModSet.isEmpty, ModSet.names,
      ModSet.empty, MButton.name, plus, apos, phStart, phEnd, typingGap, List.foldl]

/-- C4 witness: part 1 applied to the concrete used shift hold of
`wShiftUsed` (closing at time 3), and part 2 applied to the fresh shift
hold of `wShiftHold` with a single following keypress. -/
theorem C4_witness :
    (maybeRollover wShiftUsed 3).actions = wShiftUsed.actions ++
      (if (⟨⟨false, false, false, true⟩, 1, 1, true⟩ : ModBlock).used then
        [⟨"modifier_hold",
          String.intercalate plus (⟨⟨false, false, false, true⟩, 1, 1, true⟩ : ModBlock).mods.names ++ " held",
          (⟨⟨false, false, false, true⟩, 1, 1, true⟩ : ModBlock).t0 - wShiftUsed.origin,
          3 - wShiftUsed.origin,
          (⟨⟨false, false, false, true⟩, 1, 1, true⟩ : ModBlock).idx⟩]
      else [])
    ∧ (runEvents wShiftHold [Event.press (Key.kc (Char.ofNat 97) true) 2]).activeModBlock
      = wShiftHold.activeModBlock.map
          (fun b => ⟨b.mods, b.t0, b.idx,
            b.used || [Event.press (Key.kc (Char.ofNat 97) true) 2].any isPressEvent⟩) :=
  ⟨C4_modifier_hold_iff_used.1 wShiftUsed 3 ⟨⟨false, false, false, true⟩, 1, 1, true⟩
    wShiftUsed_block.1 wShiftUsed_block.2,
   C4_modifier_hold_iff_used.2.1 wShiftHold
    [Event.press (Key.kc (Char.ofNat 97) true) 2] (by decide)⟩

/-- C5: a release finalizes exactly the most recent unmatched press on
that button, and any other release is a silent no-op.  Part 1: a press
of a tracked button stores (overwriting) the pending gesture, so the
stored gesture is always the most recent press.  Part 2: a release with
a matching pending gesture finalizes it from the stored press data and
clears it.  Part 3: a release with no open pending gesture (untracked
button, or a second consecutive release) leaves the state completely
unchanged — no Action, no error. -/
theorem C5_release_matches_most_recent_press :
    (∀ (s : St) (x y : ℤ) (b : MButton) (now : ℚ), b ≠ MButton.middle →
      getPending (onClick s x y b true now) b
        = some ⟨x, y, now, s.ssIdx, currentModSet s⟩)
    ∧ (∀ (s : St) (x y : ℤ) (b : MButton) (now : ℚ) (p : Pending),
        getPending s b = some p →
      (onClick s x y b false now).actions
        = (finalizeTyping (setPending s b none) now).actions ++
          [⟨MButton.name b ++ "_click", clickDesc (MButton.name b ++ "_click") p x y,
            p.t - s.origin, now - s.origin, p.idx⟩]
      ∧ getPending (onClick s x y b false now) b = none)
    ∧ (∀ (s : St) (x y : ℤ) (b : MButton) (now : ℚ), getPending s b = none →
      onClick s x y b false now = s) := by
  refine ⟨?_, ?_, ?_⟩
  · exact fun s x y b now hb => onClick_press_pending s x y b now hb
  · intro s x y b now p hp
    refine ⟨onClick_release_actions s x y b now p hp, ?_⟩
    rw [onClick_release_eq s x y b now p hp]
    cases b with
    | left => simp [getPending, setPending]
    | right => simp [getPending, setPending]
    | middle => exact absurd hp (by simp [getPending])
  · exact fun s x y b now hp => onClick_release_noop s x y b now hp

/-- C5 witness: part 3 applied to a release with nothing pending, and
part 1 applied to a concrete press. -/
theorem C5_witness :
    onClick (mkTracker 0 false false) 3 4 MButton.left false 1 = mkTracker 0 false false
    ∧ getPending (onClick (mkTracker 0 false false) 10 10 MButton.left true 1) MButton.left
      = some ⟨10, 10, 1, (mkTracker 0 false false).ssIdx,
          currentModSet (mkTracker 0 false false)⟩ :=
  ⟨C5_release_matches_most_recent_press.2.2 (mkTracker 0 false false) 3 4 MButton.left 1 rfl,
   C5_release_matches_most_recent_press.1 (mkTracker 0 false false) 10 10 MButton.left 1
    (by decide)⟩

/-- C6: a non-modifier keypress emits a `key_combo` Action exactly when
the held modifier set contains ctrl, command or option (`comboCtx`);
shift alone or no modifiers emit nothing.  The combo's description
joins the held modifier names in canonical order (ctrl, command,
option, shift — the order `ModSet.names` produces) followed by the
key's literal name, separated by `+`.  The final conjunct checks the
spec's scenario: holding only command and pressing c yields exactly one
`key_combo` with description `command+c`. -/
theorem C6_key_combo_iff_canonical_desc (s : St) (k : Key) (now : ℚ)
    (hk : isModifierKey k = false) :
    (comboCtx s = true →
      (onPress s k now).actions = (finalizeTyping (markUsed s) now).actions ++
        [⟨"key_combo", String.intercalate plus ((currentModSet s).names ++ [keyName k]),
          now - s.origin, now - s.origin, s.ssIdx⟩])
    ∧ (comboCtx s = false → (onPress s k now).actions = s.actions)
    ∧ (runEvents (mkTracker 0 false false)
        [Event.press Key.cmdK 1, Event.press (Key.kc (Char.ofNat 99) true) 2]).actions
      = [⟨"key_combo", "command+c", 2, 2, 2⟩] := by
  refine ⟨fun hc => onPress_combo_actions s k now hk hc,
    fun hc => onPress_noncombo_actions s k now hk hc, ?_⟩
  norm_num [runEvents, stepEv, onClick, onPress, onRelease, flushTick, stopTracker, mkTracker,
      capture, currentModSet, getPending, setPending, finalizeTyping, beginOrContinue,
      maybeRollover, openBlock, markUsed, updateMod, clickDesc, typedDesc, tokenOf,
      specialTypingKey, isModifierKey, keyName, comboCtx, ModSet.isEmpty, ModSet.names,
      ModSet.empty, MButton.name, plus, apos, phStart, phEnd, typingGap, List.foldl]
  decide

/-- C6 witness: the theorem applied with only command held and the c
key pressed at time 2. -/
theorem C6_witness :
    (onPress wCmdHeld (Key.kc (Char.ofNat 99) true) 2).actions
      = (finalizeTyping (markUsed wCmdHeld) 2).actions ++
        [⟨"key_combo",
          String.intercalate plus
            ((currentModSet wCmdHeld).names ++ [keyName (Key.kc (Char.ofNat 99) true)]),
          2 - wCmdHeld.origin, 2 - wCmdHeld.origin, wCmdHeld.ssIdx⟩] :=
  (C6_key_combo_iff_canonical_desc wCmdHeld (Key.kc (Char.ofNat 99) true) 2 rfl).1 rfl

/-- C7: starting from a state with no open phrase and no combo-modifier
held, running any sequence of non-modifier key presses accumulates
exactly the tokens of the qualifying keys, in arrival order (printable
characters verbatim, Enter as newline, Backspace as `<BACKSPACE>`,
Delete as `<DELETE>`, Tab as tab, Space as space; anything else
contributes nothing); finalizing then emits no Action when no
qualifying key occurred, and otherwise exactly one `typing` Action
whose description quotes the concatenation of those tokens. -/
theorem C7_typed_phrase_is_token_concat (s : St) (ks : List (Key × ℚ)) (ts : ℚ)
    (hc : comboCtx s = false) (h0 : s.typingStart = none) (h1 : s.typedChars = [])
    (hks : ∀ p ∈ ks, isModifierKey p.1 = false) :
    (runEvents s (ks.map fun p => Event.press p.1 p.2)).typedChars
        = ks.filterMap (fun p => tokenOf p.1)
    ∧ (ks.filterMap (fun p => tokenOf p.1) = [] →
        (finalizeTyping (runEvents s (ks.map fun p => Event.press p.1 p.2)) ts).actions
          = (runEvents s (ks.map fun p => Event.press p.1 p.2)).actions)
    ∧ (ks.filterMap (fun p => tokenOf p.1) ≠ [] →
        ∃ a, (finalizeTyping (runEvents s (ks.map fun p => Event.press p.1 p.2)) ts).actions
            = (runEvents s (ks.map fun p => Event.press p.1 p.2)).actions ++ [a]
          ∧ a.kind = "typing"
          ∧ a.description
              = typedDesc (String.join (ks.filterMap (fun p => tokenOf p.1)))) := by
  obtain ⟨hchars, hsome, hacts⟩ := runPresses_typing s ks hc hks
  rw [h1, List.nil_append] at hchars
  refine ⟨hchars, ?_, ?_⟩
  · intro hfm
    have hnone : (runEvents s (ks.map fun p => Event.press p.1 p.2)).typingStart = none := by
      rw [← Option.not_isSome_iff_eq_none, hsome, h0]
      simp only [Option.isSome_none, Bool.false_or]
      rw [Bool.not_eq_true, List.any_eq_false]
      intro p hp
      have := List.filterMap_eq_nil_iff.1 hfm p hp
      simp [this]
    rw [finalizeTyping_noop _ _ hnone]
  · intro hfm
    have hsome2 : (runEvents s (ks.map fun p => Event.press p.1 p.2)).typingStart.isSome = true := by
      rw [hsome, h0]
      simp only [Option.isSome_none, Bool.false_or]
      by_contra hany
      rw [Bool.not_eq_true, List.any_eq_false] at hany
      apply hfm
      rw [List.filterMap_eq_nil_iff]
      intro p hp
      have := hany p hp
      simpa using this
    obtain ⟨t0, ht0⟩ := Option.isSome_iff_exists.1 hsome2
    have hjoin : String.join (runEvents s (ks.map fun p => Event.press p.1 p.2)).typedChars ≠ "" := by
      rw [hchars]
      refine join_ne_empty _ hfm ?_
      intro x hx
      obtain ⟨p, hp, hpx⟩ := List.mem_filterMap.1 hx
      exact tokenOf_ne_empty p.1 x hpx
    refine ⟨⟨"typing",
      typedDesc (String.join (runEvents s (ks.map fun p => Event.press p.1 p.2)).typedChars),
      t0 - (runEvents s (ks.map fun p => Event.press p.1 p.2)).origin,
      ts - (runEvents s (ks.map fun p => Event.press p.1 p.2)).origin,
      (runEvents s (ks.map fun p => Event.press p.1 p.2)).typingId.getD 0⟩,
      finalizeTyping_actions_eq _ ts t0 ht0 hjoin, rfl, ?_⟩
    simp only [hchars]

/-- C7 witness: the theorem applied to typing the character a then
Enter from a fresh tracker. -/
theorem C7_witness :
    (runEvents (mkTracker 0 false false)
        ([(Key.kc (Char.ofNat 97) true, (1 : ℚ)), (Key.enter, 2)].map
          fun p => Event.press p.1 p.2)).typedChars
      = [((Key.kc (Char.ofNat 97) true : Key), (1 : ℚ)), (Key.enter, 2)].filterMap
          (fun p => tokenOf p.1) :=
  (C7_typed_phrase_is_token_concat (mkTracker 0 false false)
    [(Key.kc (Char.ofNat 97) true, 1), (Key.enter, 2)] 3
    rfl rfl rfl (by decide)).1

/-- C8: the alignment pass maps every Action through
`aligned = round((raw - videoT0) * fps) / fps` on both `start` and
`end`, and re-sorts the log by capture index.  The result is a
permutation of the snapped log, it is sorted by `ss_idx` (restoring
creation order), and each snapped offset lands on a frame boundary
(an integer multiple of 1/fps) that is nearest to the raw offset:
within half a frame of it, and no farther from it than any other frame
boundary. -/
theorem C8_alignment_snap_and_resort (fps : ℕ) (t0 : ℚ) (log : List Action)
    (hf : 0 < fps) :
    (alignActions fps t0 log).Perm (log.map (snapAction fps t0))
    ∧ (alignActions fps t0 log).Pairwise (fun a b => a.ss_idx ≤ b.ss_idx)
    ∧ (∀ a : Action, snapAction fps t0 a
        = ⟨a.kind, a.description, snap a.start fps t0, snap a.end_ fps t0, a.ss_idx⟩)
    ∧ (∀ raw : ℚ, (∃ z : ℤ, snap raw fps t0 = (z : ℚ) / fps)
        ∧ |snap raw fps t0 - (raw - t0)| ≤ 1 / (2 * fps)
        ∧ ∀ z : ℤ, |snap raw fps t0 - (raw - t0)| ≤ |(z : ℚ) / fps - (raw - t0)|) :=
  ⟨alignActions_perm fps t0 log, alignActions_sorted fps t0 log, fun _ => rfl,
    fun raw => ⟨snap_frame fps t0 raw, (snap_nearest fps hf t0 raw).1,
      (snap_nearest fps hf t0 raw).2⟩⟩

/-- C8 witness: the theorem applied at 30 fps with video origin 0 and
an empty log; the half-frame bound at raw offset 1. -/
theorem C8_witness :
    |snap 1 30 0 - (1 - 0)| ≤ 1 / (2 * ((30 : ℕ) : ℚ)) :=
  ((C8_alignment_snap_and_resort 30 0 [] (by norm_num)).2.2.2 1).2.1

/-- C9: typing-phrase finalization is idempotent: finalizing a state
with no open phrase is a no-op that leaves the whole state unchanged,
and finalizing twice in a row (with no keypress in between) equals
finalizing once — in particular the second call appends no second
typing Action. -/
theorem C9_finalize_idempotent (s : St) (ts ts2 : ℚ) :
    finalizeTyping (finalizeTyping s ts) ts2 = finalizeTyping s ts
    ∧ (s.typingStart = none → finalizeTyping s ts = s)
    ∧ (finalizeTyping (finalizeTyping s ts) ts2).actions = (finalizeTyping s ts).actions := by
  have hid : finalizeTyping (finalizeTyping s ts) ts2 = finalizeTyping s ts :=
    finalizeTyping_noop _ _ (finalizeTyping_typingStart s ts)
  exact ⟨hid, fun h => finalizeTyping_noop s ts h, by rw [hid]⟩

/-- C9 witness: the theorem applied to the open phrase of `wPressA`
(double finalization at 7 then 8) and to a fresh tracker with no open
phrase. -/
theorem C9_witness :
    finalizeTyping (finalizeTyping wPressA 7) 8 = finalizeTyping wPressA 7
    ∧ finalizeTyping (mkTracker 0 false false) 1 = mkTracker 0 false false :=
  ⟨(C9_finalize_idempotent wPressA 7 8).1,
   (C9_finalize_idempotent (mkTracker 0 false false) 1 2).2.1 rfl⟩

/-- C10: every `key_combo` Action is instantaneous.  Part 1: in any run
from a fresh tracker, every logged Action of kind `key_combo` has equal
start and end offsets.  Part 2: the combo branch of `on_press` appends
the Action with `start = end = now - origin` and queues its start-phase
and end-phase capture requests both at that same offset. -/
theorem C10_key_combo_instantaneous :
    (∀ (origin : ℚ) (dbg dir : Bool) (evs : List Event),
      ∀ a ∈ (runEvents (mkTracker origin dbg dir) evs).actions,
        a.kind = "key_combo" → a.start = a.end_)
    ∧ (∀ (s : St) (k : Key) (now : ℚ), isModifierKey k = false → comboCtx s = true →
      (onPress s k now).actions = (finalizeTyping (markUsed s) now).actions ++
        [⟨"key_combo", String.intercalate plus ((currentModSet s).names ++ [keyName k]),
          now - s.origin, now - s.origin, s.ssIdx⟩]
      ∧ (onPress s k now).ssRequests = (finalizeTyping (markUsed s) now).ssRequests ++
        (if s.debug && s.ssDirSome then
          [(s.ssIdx, phStart, now - s.origin), (s.ssIdx, phEnd, now - s.origin)]
        else [])) := by
  constructor
  · intro origin dbg dir evs
    exact runEvents_combo_inst _ evs (fun a ha => absurd ha (by simp [mkTracker]))
  · intro s k now hk hc
    exact ⟨onPress_combo_actions s k now hk hc, onPress_combo_requests s k now hk hc⟩

/-- C10 witness: part 2 applied with only command held and the c key
pressed at time 2 — the two capture requests carry the same offset. -/
theorem C10_witness :
    (onPress wCmdHeld (Key.kc (Char.ofNat 99) true) 2).ssRequests
      = (finalizeTyping (markUsed wCmdHeld) 2).ssRequests ++
        (if wCmdHeld.debug && wCmdHeld.ssDirSome then
          [(wCmdHeld.ssIdx, phStart, 2 - wCmdHeld.origin),
           (wCmdHeld.ssIdx, phEnd, 2 - wCmdHeld.origin)]
        else []) :=
  (C10_key_combo_instantaneous.2 wCmdHeld (Key.kc (Char.ofNat 99) true) 2 rfl rfl).2

end ScreenRec
